import Mathlib

/-!
Verification of the mocap-toolkit frame server (`main` in the server source).

The synchronizer loop (lines 159-218 of the server's `main`) holds one
`current_frames` slot per camera, fills empty slots from the per-camera
filled queues, computes the maximum timestamp over the full slot set,
recycles every slot strictly below the maximum back to that camera's empty
queue, and emits an aligned set when all timestamps agree, up to a target
of 100 complete sets.

The model below embeds that loop.  A frame is identified by its `u64`
timestamp (a `Nat`); each camera carries its filled-queue contents
(`queue`, head = next frame to dequeue), its `current_frames` slot (`cur`,
`none` = NULL) and the ordered log of timestamps it has enqueued back to
its empty queue (`recycled`).
-/

namespace Mimic

/-- `FRAME_BUFS_PER_THREAD` from the server source (line 20). -/
def FRAME_BUFS_PER_THREAD : Nat := 32

/-- The hard-coded emission target of the synchronizer loop
(`while (complete_sets < 100)`, lines 162-164). -/
def targetSets : Nat := 100

/-- Per-camera state seen by the synchronizer: the filled queue, the
`current_frames[i]` slot, and the log of buffers returned to `empty_q[i]`
(identified by timestamp, oldest first). -/
structure Cam where
  queue : List Nat
  cur : Option Nat
  recycled : List Nat
deriving DecidableEq

/-- Overall synchronizer state: the per-camera states, the timestamps of
the aligned sets emitted so far (oldest first), and `complete_sets`. -/
structure SyncState where
  cams : List Cam
  emitted : List Nat
  sets : Nat
deriving DecidableEq

/-- Slot fill for one camera (lines 167-177): a non-NULL slot is kept;
an empty slot takes the head of the filled queue, or stays NULL when the
queue is empty. -/
def fillCam (c : Cam) : Cam :=
  match c.cur with
  | some _ => c
  | none =>
    match c.queue with
    | [] => c
    | t :: rest => { c with cur := some t, queue := rest }

/-- The fill pass over all cameras (the first `for` loop of an iteration). -/
def fillSlots (cams : List Cam) : List Cam :=
  cams.map fillCam

/-- `full_set`: every `current_frames[i]` is non-NULL after the fill pass. -/
def fullSet (cams : List Cam) : Bool :=
  cams.all (fun c => c.cur.isSome)

/-- Timestamp of a slot; `0` for a NULL slot (the loop only reads
timestamps on a full set, where the default is never used). -/
def tsOf (c : Cam) : Nat :=
  c.cur.getD 0

/-- `max_timestamp` (lines 183-187): starts at 0, takes every slot
timestamp that exceeds the running maximum. -/
def maxTimestamp (cams : List Cam) : Nat :=
  cams.foldl (fun m c => max m (tsOf c)) 0

/-- The alignment check/recycle for one camera (lines 191-197): a slot
whose timestamp differs from the maximum is enqueued to `empty_q[i]` and
cleared to NULL; a slot at the maximum is untouched. -/
def alignCam (m : Nat) (c : Cam) : Cam :=
  match c.cur with
  | some t =>
    if t ≠ m then { c with cur := none, recycled := c.recycled ++ [t] }
    else c
  | none => c

/-- `all_equal` (lines 190-197): every slot timestamp equals the maximum. -/
def allEqual (cams : List Cam) (m : Nat) : Bool :=
  cams.all (fun c => tsOf c = m)

/-- Emission release for one camera (lines 212-215): the slot buffer is
returned to `empty_q[i]` and the slot cleared to NULL. -/
def emitCam (c : Cam) : Cam :=
  match c.cur with
  | some t => { c with cur := none, recycled := c.recycled ++ [t] }
  | none => c

/-- One iteration of the synchronizer loop body (lines 164-218): fill
slots; without a full set, retry; with a full set, compute the maximum,
recycle mismatched slots and retry, or, when all timestamps are equal,
log/emit the aligned set, release every slot, and count it. -/
def step (s : SyncState) : SyncState :=
  if fullSet (fillSlots s.cams) then
    if allEqual (fillSlots s.cams) (maxTimestamp (fillSlots s.cams)) then
      { cams := (fillSlots s.cams).map emitCam,
        emitted := s.emitted ++ [maxTimestamp (fillSlots s.cams)],
        sets := s.sets + 1 }
    else
      { s with cams := (fillSlots s.cams).map (alignCam (maxTimestamp (fillSlots s.cams))) }
  else
    { s with cams := fillSlots s.cams }

/-- Fuel-bounded execution of `while (complete_sets < target)`. -/
def run (target : Nat) : Nat → SyncState → SyncState
  | 0, s => s
  | n + 1, s => if s.sets < target then run target n (step s) else s

/-- Initial synchronizer state for given filled-queue contents: all slots
NULL (the `memset` at line 160), nothing emitted, `complete_sets = 0`. -/
def initState (qs : List (List Nat)) : SyncState :=
  { cams := qs.map (fun q => { queue := q, cur := none, recycled := [] }), emitted := [], sets := 0 }

/-- The stop sentinel broadcast after the loop (lines 220-221): the bytes
of `"STOP"`, sent with length `strlen("STOP")`, hence no terminator. -/
def stopMsgBytes : List Nat :=
  (String.toList "STOP").map Char.toNat

/-! ### Facts about the running-maximum fold -/

lemma le_foldl_maxTs (cams : List Cam) (a : Nat) :
    a ≤ cams.foldl (fun m c => max m (tsOf c)) a := by
  induction cams generalizing a with
  | nil => exact Nat.le_refl a
  | cons c t ih => exact Nat.le_trans (Nat.le_max_left a (tsOf c)) (ih (max a (tsOf c)))

lemma tsOf_le_foldl_maxTs (cams : List Cam) (a : Nat) (c : Cam) (hc : c ∈ cams) :
    tsOf c ≤ cams.foldl (fun m x => max m (tsOf x)) a := by
  induction cams generalizing a with
  | nil => cases hc
  | cons d t ih =>
    rcases List.mem_cons.mp hc with h | h
    · subst h
      exact Nat.le_trans (Nat.le_max_right a (tsOf c)) (le_foldl_maxTs t (max a (tsOf c)))
    · exact ih (max a (tsOf d)) h

lemma foldl_maxTs_eq_or_mem (cams : List Cam) (a : Nat) :
    cams.foldl (fun m c => max m (tsOf c)) a = a ∨
      ∃ c ∈ cams, tsOf c = cams.foldl (fun m x => max m (tsOf x)) a := by
  induction cams generalizing a with
  | nil => exact Or.inl rfl
  | cons d t ih =>
    rcases ih (max a (tsOf d)) with h | h
    · rcases Nat.le_total (tsOf d) a with hda | had
      · left
        simpa [Nat.max_eq_left hda] using h
      · right
        refine ⟨d, List.mem_cons_self d t, ?_⟩
        simpa [Nat.max_eq_right had] using h.symm
    · rcases h with ⟨c, hct, hceq⟩
      exact Or.inr ⟨c, List.mem_cons_of_mem d hct, hceq⟩

/-- Every slot timestamp is bounded by `max_timestamp`. -/
lemma tsOf_le_maxTimestamp (cams : List Cam) (c : Cam) (hc : c ∈ cams) :
    tsOf c ≤ maxTimestamp cams :=
  tsOf_le_foldl_maxTs cams 0 c hc

/-- On a nonempty slot set, `max_timestamp` is attained by some slot. -/
lemma maxTimestamp_attained (cams : List Cam) (hne : cams ≠ []) :
    ∃ c ∈ cams, tsOf c = maxTimestamp cams := by
  rcases foldl_maxTs_eq_or_mem cams 0 with h | h
  · cases cams with
    | nil => exact absurd rfl hne
    | cons d t =>
      refine ⟨d, List.mem_cons_self d t, ?_⟩
      have hle := tsOf_le_maxTimestamp (d :: t) d (List.mem_cons_self d t)
      have : maxTimestamp (d :: t) = 0 := h
      omega
  · exact h

/-- On a full set, every slot holds a frame. -/
lemma fullSet_cur_some (cams : List Cam) (hf : fullSet cams = true)
    (c : Cam) (hc : c ∈ cams) : c.cur = some (tsOf c) := by
  have hs := (List.all_eq_true.mp hf) c hc
  rcases Option.isSome_iff_exists.mp hs with ⟨t, ht⟩
  simp [tsOf, ht]

/-- `all_equal` means every slot timestamp equals the maximum. -/
lemma allEqual_tsOf (cams : List Cam) (m : Nat) (he : allEqual cams m = true)
    (c : Cam) (hc : c ∈ cams) : tsOf c = m := by
  have := (List.all_eq_true.mp he) c hc
  simpa using this

/-! ### C1: emission happens only with all timestamps equal -/

/-- C1. Whenever an iteration of the synchronizer loop counts a complete
set (`complete_sets` is incremented), every `current_frames` slot holds
the common maximal timestamp, so all pairs of slots agree, and that common
value is the timestamp logged for the emitted set. -/
theorem c1_emit_all_timestamps_equal (s : SyncState)
    (h : (step s).sets = s.sets + 1) :
    ∃ m, (∀ c ∈ fillSlots s.cams, c.cur = some m) ∧
      (∀ c ∈ fillSlots s.cams, ∀ d ∈ fillSlots s.cams, tsOf c = tsOf d) ∧
      (step s).emitted = s.emitted ++ [m] := by
  by_cases hf : fullSet (fillSlots s.cams) = true
  · by_cases he : allEqual (fillSlots s.cams) (maxTimestamp (fillSlots s.cams)) = true
    · refine ⟨maxTimestamp (fillSlots s.cams), ?_, ?_, ?_⟩
      · intro c hc
        rw [fullSet_cur_some _ hf c hc, allEqual_tsOf _ _ he c hc]
      · intro c hc d hd
        rw [allEqual_tsOf _ _ he c hc, allEqual_tsOf _ _ he d hd]
      · unfold step
        rw [if_pos hf, if_pos he]
    · exfalso
      unfold step at h
      rw [if_pos hf, if_neg he] at h
      simp at h
  · exfalso
    unfold step at h
    rw [if_neg hf] at h
    simp at h

/-- Witness state for C1: two slots already holding timestamp 5. -/
def c1State : SyncState :=
  { cams := [{ queue := [], cur := some 5, recycled := [] },
             { queue := [], cur := some 5, recycled := [] }],
    emitted := [], sets := 0 }

/-- C1 witness: the theorem applied to a concrete emitting state. -/
theorem c1_emit_all_timestamps_equal_witness :
    ∃ m, (∀ c ∈ fillSlots c1State.cams, c.cur = some m) ∧
      (∀ c ∈ fillSlots c1State.cams, ∀ d ∈ fillSlots c1State.cams, tsOf c = tsOf d) ∧
      (step c1State).emitted = c1State.emitted ++ [m] :=
  c1_emit_all_timestamps_equal c1State (by decide)

/-! ### C2: the alignment pass recycles exactly the below-max slots -/

/-- C2. In an alignment pass over a full slot set with maximum `t_max`,
a slot is cleared to NULL with its buffer enqueued to that camera's empty
queue exactly when its timestamp is strictly below `t_max`, and a slot at
`t_max` is left completely untouched (its frame kept, nothing enqueued). -/
theorem c2_align_pass_exact (cams : List Cam) (hf : fullSet cams = true)
    (c : Cam) (hc : c ∈ cams) :
    (tsOf c < maxTimestamp cams ↔
      (alignCam (maxTimestamp cams) c).cur = none ∧
      (alignCam (maxTimestamp cams) c).recycled = c.recycled ++ [tsOf c]) ∧
    (tsOf c = maxTimestamp cams ↔ alignCam (maxTimestamp cams) c = c) := by
  have hcur := fullSet_cur_some cams hf c hc
  have hle := tsOf_le_maxTimestamp cams c hc
  by_cases heq : tsOf c = maxTimestamp cams
  · have halign : alignCam (maxTimestamp cams) c = c := by
      unfold alignCam
      rw [hcur]
      simp [heq]
    constructor
    · constructor
      · intro hlt
        omega
      · intro ⟨hnone, _⟩
        rw [halign, hcur] at hnone
        cases hnone
    · exact ⟨fun _ => halign, fun _ => heq⟩
  · have hlt : tsOf c < maxTimestamp cams := Nat.lt_of_le_of_ne hle heq
    have halign : alignCam (maxTimestamp cams) c =
        { c with cur := none, recycled := c.recycled ++ [tsOf c] } := by
      unfold alignCam
      rw [hcur]
      simp [heq]
    constructor
    · exact ⟨fun _ => by rw [halign]; exact ⟨rfl, rfl⟩, fun _ => hlt⟩
    · constructor
      · intro h
        exact absurd h heq
      · intro h
        exfalso
        have := congrArg (fun x => x.recycled.length) (halign ▸ h)
        simp at this

/-- Witness slot set for C2 and C9: two full slots with timestamps 1, 2. -/
def c2Cams : List Cam :=
  [{ queue := [], cur := some 1, recycled := [] },
   { queue := [], cur := some 2, recycled := [] }]

/-- C2 witness: the theorem applied to the lagging slot of `c2Cams`. -/
theorem c2_align_pass_exact_witness :
    (tsOf { queue := [], cur := some 1, recycled := [] } < maxTimestamp c2Cams ↔
      (alignCam (maxTimestamp c2Cams) { queue := [], cur := some 1, recycled := [] }).cur = none ∧
      (alignCam (maxTimestamp c2Cams)
          { queue := [], cur := some 1, recycled := [] }).recycled =
        Cam.recycled { queue := [], cur := some 1, recycled := [] } ++
          [tsOf { queue := [], cur := some 1, recycled := [] }]) ∧
    (tsOf { queue := [], cur := some 1, recycled := [] } = maxTimestamp c2Cams ↔
      alignCam (maxTimestamp c2Cams) { queue := [], cur := some 1, recycled := [] } =
        { queue := [], cur := some 1, recycled := [] }) :=
  c2_align_pass_exact c2Cams (by decide) _ (by decide)

/-! ### C9: a max-timestamp slot always survives the alignment pass -/

/-- C9. In an alignment pass over a nonempty full slot set, some slot
attaining the maximum timestamp is retained unchanged, so the pass clears
(and recycles) strictly fewer than N of the N held slots and never leaves
every `current_frames` slot NULL. -/
theorem c9_pass_keeps_a_slot (cams : List Cam) (hne : cams ≠ [])
    (hf : fullSet cams = true) :
    (∃ c ∈ cams, tsOf c = maxTimestamp cams ∧ alignCam (maxTimestamp cams) c = c) ∧
    (cams.map (alignCam (maxTimestamp cams))).countP (fun c => c.cur.isNone) + 1 ≤
      cams.length ∧
    ¬ (cams.map (alignCam (maxTimestamp cams))).all (fun c => c.cur.isNone) = true := by
  obtain ⟨c, hc, hmax⟩ := maxTimestamp_attained cams hne
  have hkeep : alignCam (maxTimestamp cams) c = c :=
    ((c2_align_pass_exact cams hf c hc).2).mp hmax
  have hcur : c.cur = some (tsOf c) := fullSet_cur_some cams hf c hc
  have hmem : c ∈ cams.map (alignCam (maxTimestamp cams)) := by
    rw [← hkeep]
    exact List.mem_map_of_mem (alignCam (maxTimestamp cams)) hc
  have hnotnone : (fun d : Cam => d.cur.isNone) c = false := by
    simp [hcur]
  refine ⟨⟨c, hc, hmax, hkeep⟩, ?_, ?_⟩
  · have hsplit :=
      List.length_eq_countP_add_countP (fun d : Cam => d.cur.isNone)
        (cams.map (alignCam (maxTimestamp cams)))
    have hpos : 0 < (cams.map (alignCam (maxTimestamp cams))).countP
        (fun d : Cam => decide ¬ d.cur.isNone = true) := by
      rw [List.countP_pos_iff]
      exact ⟨c, hmem, by simp [hcur]⟩
    have hlen : (cams.map (alignCam (maxTimestamp cams))).length = cams.length :=
      List.length_map cams (alignCam (maxTimestamp cams))
    omega
  · intro hall
    have := (List.all_eq_true.mp hall) c hmem
    rw [hcur] at this
    cases this

/-- C9 witness: the theorem applied to the concrete slot set `c2Cams`. -/
theorem c9_pass_keeps_a_slot_witness :
    (∃ c ∈ c2Cams, tsOf c = maxTimestamp c2Cams ∧
      alignCam (maxTimestamp c2Cams) c = c) ∧
    (c2Cams.map (alignCam (maxTimestamp c2Cams))).countP (fun c => c.cur.isNone) + 1 ≤
      c2Cams.length ∧
    ¬ (c2Cams.map (alignCam (maxTimestamp c2Cams))).all (fun c => c.cur.isNone) = true :=
  c9_pass_keeps_a_slot c2Cams (by decide) (by decide)

/-! ### C4: the spec's scenario S2 -/

/-- The S2 filled-queue inputs: camera 0 receives timestamps
100, 200, 300, 400; camera 1 receives 200, 300, 400. -/
def s2Input : List (List Nat) := [[100, 200, 300, 400], [200, 300, 400]]

/-- The synchronizer state after the S2 run has quiesced (4 iterations
suffice; extra fuel is harmless since the state is a fixpoint). -/
def s2Final : SyncState := run targetSets 10 (initState s2Input)

/-- C4. On scenario S2 the synchronizer emits exactly the aligned sets
with timestamps 200, 300, 400 in that order; camera 0's buffer bearing
timestamp 100 is enqueued to `empty_q[0]` exactly once (and never to
`empty_q[1]`); and the quiesced state is a fixpoint of the loop body, so
no further set is ever emitted. -/
theorem c4_scenario_s2 :
    s2Final.emitted = [200, 300, 400] ∧
    s2Final.cams.map (fun c => c.recycled.count 100) = [1, 0] ∧
    step s2Final = s2Final := by decide

/-! ### C3: emitted timestamps strictly increase

The loop invariant: per camera, the remaining filled-queue contents are
strictly increasing and lie strictly above the timestamp currently held in
the slot; and every timestamp already emitted lies strictly below every
live timestamp (slot or queue) of every camera. -/

/-- Per-camera ordering invariant: queue strictly increasing, and the held
slot (if any) strictly precedes everything still queued. -/
def camOrd (c : Cam) : Prop :=
  c.queue.Pairwise (· < ·) ∧ ∀ t, c.cur = some t → ∀ x ∈ c.queue, t < x

/-- `L` lies strictly below everything live in camera `c`. -/
def camAbove (L : Nat) (c : Cam) : Prop :=
  (∀ t, c.cur = some t → L < t) ∧ ∀ x ∈ c.queue, L < x

/-- The synchronizer loop invariant. -/
def syncInv (s : SyncState) : Prop :=
  s.cams ≠ [] ∧ (∀ c ∈ s.cams, camOrd c) ∧ s.emitted.Pairwise (· < ·) ∧
  ∀ L ∈ s.emitted, ∀ c ∈ s.cams, camAbove L c

lemma fillCam_some (q : List Nat) (t : Nat) (r : List Nat) :
    fillCam { queue := q, cur := some t, recycled := r } =
      { queue := q, cur := some t, recycled := r } := rfl

lemma fillCam_none_nil (r : List Nat) :
    fillCam { queue := [], cur := none, recycled := r } =
      { queue := [], cur := none, recycled := r } := rfl

lemma fillCam_none_cons (t : Nat) (rest r : List Nat) :
    fillCam { queue := t :: rest, cur := none, recycled := r } =
      { queue := rest, cur := some t, recycled := r } := rfl

lemma alignCam_none (m : Nat) (q r : List Nat) :
    alignCam m { queue := q, cur := none, recycled := r } =
      { queue := q, cur := none, recycled := r } := rfl

lemma alignCam_some_eq (m t : Nat) (q r : List Nat) (ht : t = m) :
    alignCam m { queue := q, cur := some t, recycled := r } =
      { queue := q, cur := some t, recycled := r } := by
  simp [alignCam, ht]

lemma alignCam_some_ne (m t : Nat) (q r : List Nat) (ht : t ≠ m) :
    alignCam m { queue := q, cur := some t, recycled := r } =
      { queue := q, cur := none, recycled := r ++ [t] } := by
  simp [alignCam, ht]

lemma emitCam_none (q r : List Nat) :
    emitCam { queue := q, cur := none, recycled := r } =
      { queue := q, cur := none, recycled := r } := rfl

lemma emitCam_some (q : List Nat) (t : Nat) (r : List Nat) :
    emitCam { queue := q, cur := some t, recycled := r } =
      { queue := q, cur := none, recycled := r ++ [t] } := rfl

lemma camOrd_fillCam : ∀ c : Cam, camOrd c → camOrd (fillCam c) := by
  rintro ⟨q, cur, r⟩ ⟨hq, hcur⟩
  cases cur with
  | some t => exact ⟨hq, hcur⟩
  | none =>
    cases q with
    | nil => exact ⟨hq, hcur⟩
    | cons t rest =>
      rw [fillCam_none_cons]
      refine ⟨(List.pairwise_cons.mp hq).2, ?_⟩
      intro u hu x hx
      injection hu with hu'
      subst hu'
      exact (List.pairwise_cons.mp hq).1 x hx

lemma camAbove_fillCam (L : Nat) : ∀ c : Cam, camAbove L c → camAbove L (fillCam c) := by
  rintro ⟨q, cur, r⟩ ⟨hcur, hq⟩
  cases cur with
  | some t => exact ⟨hcur, hq⟩
  | none =>
    cases q with
    | nil => exact ⟨hcur, hq⟩
    | cons t rest =>
      rw [fillCam_none_cons]
      refine ⟨?_, ?_⟩
      · intro u hu
        injection hu with hu'
        subst hu'
        exact hq t (List.mem_cons_self t rest)
      · intro x hx
        exact hq x (List.mem_cons_of_mem t hx)

lemma camOrd_alignCam (m : Nat) : ∀ c : Cam, camOrd c → camOrd (alignCam m c) := by
  rintro ⟨q, cur, r⟩ ⟨hq, hcur⟩
  cases cur with
  | none => exact ⟨hq, hcur⟩
  | some t =>
    by_cases ht : t = m
    · rw [alignCam_some_eq m t q r ht]
      exact ⟨hq, hcur⟩
    · rw [alignCam_some_ne m t q r ht]
      exact ⟨hq, fun u hu => nomatch hu⟩

lemma camAbove_alignCam (L m : Nat) : ∀ c : Cam, camAbove L c → camAbove L (alignCam m c) := by
  rintro ⟨q, cur, r⟩ ⟨hcur, hq⟩
  cases cur with
  | none => exact ⟨hcur, hq⟩
  | some t =>
    by_cases ht : t = m
    · rw [alignCam_some_eq m t q r ht]
      exact ⟨hcur, hq⟩
    · rw [alignCam_some_ne m t q r ht]
      exact ⟨(fun u hu => nomatch hu), hq⟩

lemma camOrd_emitCam : ∀ c : Cam, camOrd c → camOrd (emitCam c) := by
  rintro ⟨q, cur, r⟩ ⟨hq, hcur⟩
  cases cur with
  | none => exact ⟨hq, hcur⟩
  | some t =>
    rw [emitCam_some]
    exact ⟨hq, fun u hu => nomatch hu⟩

lemma camAbove_emitCam (L : Nat) : ∀ c : Cam, camAbove L c → camAbove L (emitCam c) := by
  rintro ⟨q, cur, r⟩ ⟨hcur, hq⟩
  cases cur with
  | none => exact ⟨hcur, hq⟩
  | some t =>
    rw [emitCam_some]
    exact ⟨(fun u hu => nomatch hu), hq⟩

/-- The loop body preserves the invariant. -/
lemma syncInv_step (s : SyncState) (h : syncInv s) : syncInv (step s) := by
  obtain ⟨hne, hord, hpw, habove⟩ := h
  have hne' : fillSlots s.cams ≠ [] := by
    unfold fillSlots
    simpa [List.map_eq_nil_iff] using hne
  have hord' : ∀ c ∈ fillSlots s.cams, camOrd c := by
    intro c hc
    obtain ⟨d, hd, rfl⟩ := List.mem_map.mp hc
    exact camOrd_fillCam d (hord d hd)
  have habove' : ∀ L ∈ s.emitted, ∀ c ∈ fillSlots s.cams, camAbove L c := by
    intro L hL c hc
    obtain ⟨d, hd, rfl⟩ := List.mem_map.mp hc
    exact camAbove_fillCam L d (habove L hL d hd)
  unfold step
  by_cases hf : fullSet (fillSlots s.cams) = true
  · rw [if_pos hf]
    by_cases he : allEqual (fillSlots s.cams) (maxTimestamp (fillSlots s.cams)) = true
    · rw [if_pos he]
      obtain ⟨c₀, hc₀⟩ := List.exists_mem_of_ne_nil _ hne'
      have hc₀cur : c₀.cur = some (maxTimestamp (fillSlots s.cams)) := by
        rw [fullSet_cur_some _ hf c₀ hc₀, allEqual_tsOf _ _ he c₀ hc₀]
      have hbelow : ∀ L ∈ s.emitted, L < maxTimestamp (fillSlots s.cams) := by
        intro L hL
        exact (habove' L hL c₀ hc₀).1 _ hc₀cur
      refine ⟨?_, ?_, ?_, ?_⟩
      · simpa [List.map_eq_nil_iff] using hne'
      · intro c hc
        obtain ⟨d, hd, rfl⟩ := List.mem_map.mp hc
        exact camOrd_emitCam d (hord' d hd)
      · rw [List.pairwise_append]
        exact ⟨hpw, List.pairwise_singleton _ _,
          fun a ha b hb => by
            rw [List.mem_singleton.mp hb]
            exact hbelow a ha⟩
      · intro L hL c hc
        obtain ⟨d, hd, rfl⟩ := List.mem_map.mp hc
        rcases List.mem_append.mp hL with hL | hL
        · exact camAbove_emitCam L d (habove' L hL d hd)
        · rw [List.mem_singleton.mp hL]
          have hdcur : d.cur = some (maxTimestamp (fillSlots s.cams)) := by
            rw [fullSet_cur_some _ hf d hd, allEqual_tsOf _ _ he d hd]
          constructor
          · intro t ht
            unfold emitCam at ht
            rw [hdcur] at ht
            cases ht
          · intro x hx
            have hx' : x ∈ d.queue := by
              unfold emitCam at hx
              rw [hdcur] at hx
              exact hx
            exact (hord' d hd).2 _ hdcur x hx'
    · rw [if_neg he]
      refine ⟨?_, ?_, hpw, ?_⟩
      · simpa [List.map_eq_nil_iff] using hne'
      · intro c hc
        obtain ⟨d, hd, rfl⟩ := List.mem_map.mp hc
        exact camOrd_alignCam _ d (hord' d hd)
      · intro L hL c hc
        obtain ⟨d, hd, rfl⟩ := List.mem_map.mp hc
        exact camAbove_alignCam L _ d (habove' L hL d hd)
  · rw [if_neg hf]
    exact ⟨hne', hord', hpw, habove'⟩

/-- Fuel iteration preserves the invariant. -/
lemma syncInv_run (t n : Nat) (s : SyncState) (h : syncInv s) :
    syncInv (run t n s) := by
  induction n generalizing s with
  | zero => exact h
  | succ k ih =>
    unfold run
    by_cases hlt : s.sets < t
    · rw [if_pos hlt]
      exact ih (step s) (syncInv_step s h)
    · rw [if_neg hlt]
      exact h

/-- C3. If there is at least one camera and every camera's filled queue
yields strictly increasing timestamps, then however long the synchronizer
runs, the timestamps of the emitted aligned sets are strictly increasing:
no set's timestamp is ≤ that of any earlier set. -/
theorem c3_emitted_strict_mono (qs : List (List Nat)) (fuel : Nat)
    (hne : qs ≠ []) (hsorted : ∀ q ∈ qs, q.Pairwise (· < ·)) :
    ((run targetSets fuel (initState qs)).emitted).Pairwise (· < ·) := by
  have hinit : syncInv (initState qs) := by
    refine ⟨?_, ?_, List.Pairwise.nil, ?_⟩
    · simpa [initState, List.map_eq_nil_iff] using hne
    · intro c hc
      obtain ⟨q, hq, rfl⟩ := List.mem_map.mp hc
      exact ⟨hsorted q hq, fun t ht => by cases ht⟩
    · intro L hL
      cases hL
  exact (syncInv_run targetSets fuel (initState qs) hinit).2.2.1

/-- C3 witness: the theorem applied to strictly increasing concrete
queues. -/
theorem c3_emitted_strict_mono_witness :
    ((run targetSets 6 (initState [[1, 2, 3], [2, 3]])).emitted).Pairwise (· < ·) :=
  c3_emitted_strict_mono [[1, 2, 3], [2, 3]] 6 (by decide) (by decide)

/-! ### C5: termination of the loop

To discuss the hypothesis "the filled queues keep supplying frames", the
model is replayed with inexhaustible queues: each camera's filled queue is
a total stream `Nat → Nat` of timestamps and a read pointer, so every
dequeue succeeds.  The loop body is embedded exactly as before. -/

/-- Camera state with an inexhaustible filled queue. -/
structure InfCam where
  stream : Nat → Nat
  ptr : Nat
  cur : Option Nat
  recycled : List Nat

/-- Synchronizer state over inexhaustible queues. -/
structure InfState where
  cams : List InfCam
  emitted : List Nat
  sets : Nat

/-- Slot fill with an inexhaustible queue: an empty slot always receives
the next stream element. -/
def fillInfCam (c : InfCam) : InfCam :=
  match c.cur with
  | some _ => c
  | none => { c with cur := some (c.stream c.ptr), ptr := c.ptr + 1 }

def fillInf (cams : List InfCam) : List InfCam :=
  cams.map fillInfCam

def fullInf (cams : List InfCam) : Bool :=
  cams.all (fun c => c.cur.isSome)

def tsInf (c : InfCam) : Nat :=
  c.cur.getD 0

def maxInf (cams : List InfCam) : Nat :=
  cams.foldl (fun m c => max m (tsInf c)) 0

def alignInfCam (m : Nat) (c : InfCam) : InfCam :=
  match c.cur with
  | some t =>
    if t ≠ m then { c with cur := none, recycled := c.recycled ++ [t] }
    else c
  | none => c

def allEqInf (cams : List InfCam) (m : Nat) : Bool :=
  cams.all (fun c => tsInf c = m)

def emitInfCam (c : InfCam) : InfCam :=
  match c.cur with
  | some t => { c with cur := none, recycled := c.recycled ++ [t] }
  | none => c

/-- The loop body over inexhaustible queues (same lines 164-218). -/
def stepInf (s : InfState) : InfState :=
  if fullInf (fillInf s.cams) then
    if allEqInf (fillInf s.cams) (maxInf (fillInf s.cams)) then
      { cams := (fillInf s.cams).map emitInfCam,
        emitted := s.emitted ++ [maxInf (fillInf s.cams)],
        sets := s.sets + 1 }
    else
      { s with cams := (fillInf s.cams).map (alignInfCam (maxInf (fillInf s.cams))) }
  else
    { s with cams := fillInf s.cams }

/-- Fuel-bounded execution of `while (complete_sets < target)` over
inexhaustible queues. -/
def runInf (target : Nat) : Nat → InfState → InfState
  | 0, s => s
  | n + 1, s => if s.sets < target then runInf target n (stepInf s) else s

/-- Two cameras that keep supplying frames forever, camera 0 always at
timestamp 0 and camera 1 always at timestamp 1: supply never runs dry,
yet no two slots ever agree. -/
def c5SupplyCex : InfState :=
  { cams := [{ stream := fun _ => 0, ptr := 0, cur := none, recycled := [] },
             { stream := fun _ => 1, ptr := 0, cur := none, recycled := [] }],
    emitted := [], sets := 0 }

/-- Reachable-state invariant of the mismatched-supply run. -/
def c5Inv (s : InfState) : Prop :=
  s.sets = 0 ∧
  ∃ p0 p1 r0 r1 c0 c1, (c0 = none ∨ c0 = some 0) ∧ (c1 = none ∨ c1 = some 1) ∧
    s.cams = [{ stream := fun _ => 0, ptr := p0, cur := c0, recycled := r0 },
              { stream := fun _ => 1, ptr := p1, cur := c1, recycled := r1 }]

lemma c5Inv_stepInf (s : InfState) (h : c5Inv s) : c5Inv (stepInf s) := by
  obtain ⟨hsets, p0, p1, r0, r1, c0, c1, h0, h1, hcams⟩ := h
  obtain ⟨cams, emitted, sets⟩ := s
  simp only at hcams hsets
  subst hcams hsets
  rcases h0 with rfl | rfl <;> rcases h1 with rfl | rfl
  · exact ⟨rfl, p0 + 1, p1 + 1, r0 ++ [0], r1, none, some 1,
      Or.inl rfl, Or.inr rfl, rfl⟩
  · exact ⟨rfl, p0 + 1, p1, r0 ++ [0], r1, none, some 1,
      Or.inl rfl, Or.inr rfl, rfl⟩
  · exact ⟨rfl, p0, p1 + 1, r0 ++ [0], r1, none, some 1,
      Or.inl rfl, Or.inr rfl, rfl⟩
  · exact ⟨rfl, p0, p1, r0 ++ [0], r1, none, some 1,
      Or.inl rfl, Or.inr rfl, rfl⟩

lemma c5Inv_runInf (n : Nat) (s : InfState) (h : c5Inv s) :
    c5Inv (runInf targetSets n s) := by
  induction n generalizing s with
  | zero => exact h
  | succ k ih =>
    unfold runInf
    rw [if_pos (show s.sets < targetSets by rw [h.1]; exact Nat.succ_pos 99)]
    exact ih (stepInf s) (c5Inv_stepInf s h)

/-- The literal reading of C5 refuted: with queues that keep supplying
frames forever (`c5SupplyCex`), the loop never completes a single aligned
set, so it never terminates, for any number of iterations. -/
def c5SupplyAloneInsufficient : Prop :=
  ∀ n, (runInf targetSets n c5SupplyCex).sets = 0

/-- C5 counterexample: the synchronizer loop does not terminate merely
because the filled queues keep supplying frames; with cameras pinned at
timestamps 0 and 1 it emits nothing, ever. -/
theorem c5_supply_alone_insufficient : c5SupplyAloneInsufficient :=
  fun n =>
    (c5Inv_runInf n c5SupplyCex
      ⟨rfl, 0, 0, [], [], none, none, Or.inl rfl, Or.inl rfl, rfl⟩).1

/-- The synchronizer state after `m` perfectly aligned iterations when all
`n` cameras share the timestamp stream `f`. -/
def perfInf (f : Nat → Nat) (n m : Nat) : InfState :=
  { cams := List.replicate n
      { stream := f, ptr := m, cur := none, recycled := (List.range m).map f },
    emitted := (List.range m).map f, sets := m }

lemma foldl_maxInf_replicate (c : InfCam) (a : Nat) (n : Nat) :
    (List.replicate (n + 1) c).foldl (fun m d => max m (tsInf d)) a = max a (tsInf c) := by
  induction n generalizing a with
  | zero => rfl
  | succ k ih =>
    rw [List.replicate_succ, List.foldl_cons, ih (max a (tsInf c))]
    rw [Nat.max_assoc, Nat.max_self]

lemma stepInf_perf (f : Nat → Nat) (k m : Nat) :
    stepInf (perfInf f (k + 1) m) = perfInf f (k + 1) (m + 1) := by
  have hfill : fillInf (List.replicate (k + 1)
        { stream := f, ptr := m, cur := none, recycled := (List.range m).map f }) =
      List.replicate (k + 1)
        { stream := f, ptr := m + 1, cur := some (f m), recycled := (List.range m).map f } := by
    unfold fillInf
    rw [List.map_replicate]
    rfl
  have hfull : fullInf (List.replicate (k + 1)
      { stream := f, ptr := m + 1, cur := some (f m), recycled := (List.range m).map f }) = true := by
    apply List.all_eq_true.mpr
    intro c hc
    rw [List.eq_of_mem_replicate hc]
    rfl
  have hmax : maxInf (List.replicate (k + 1)
      { stream := f, ptr := m + 1, cur := some (f m), recycled := (List.range m).map f }) = f m := by
    unfold maxInf
    rw [foldl_maxInf_replicate]
    exact Nat.zero_max _
  have heq : allEqInf (List.replicate (k + 1)
      { stream := f, ptr := m + 1, cur := some (f m), recycled := (List.range m).map f })
      (f m) = true := by
    apply List.all_eq_true.mpr
    intro c hc
    rw [List.eq_of_mem_replicate hc]
    simp [tsInf]
  show stepInf _ = _
  unfold stepInf
  rw [show (perfInf f (k + 1) m).cams = List.replicate (k + 1)
      { stream := f, ptr := m, cur := none, recycled := (List.range m).map f } from rfl]
  rw [hfill, if_pos hfull, hmax, if_pos heq]
  unfold perfInf
  rw [List.map_replicate]
  have hrange : (List.range (m + 1)).map f = (List.range m).map f ++ [f m] := by
    rw [List.range_succ, List.map_append]
    rfl
  rw [hrange]
  rfl

lemma runInf_perf (f : Nat → Nat) (k : Nat) :
    ∀ d m, targetSets ≤ m + d → m ≤ targetSets →
      runInf targetSets d (perfInf f (k + 1) m) = perfInf f (k + 1) targetSets := by
  intro d
  induction d with
  | zero =>
    intro m h1 h2
    have hm : m = targetSets := by
      unfold targetSets at h1 h2 ⊢
      omega
    rw [hm]
    rfl
  | succ d ih =>
    intro m h1 h2
    unfold runInf
    by_cases hm : m < targetSets
    · rw [if_pos (show (perfInf f (k + 1) m).sets < targetSets from hm)]
      rw [stepInf_perf]
      exact ih (m + 1) (by omega) (by omega)
    · have hm' : m = targetSets := by omega
      rw [hm']
      rw [if_neg (show ¬ (perfInf f (k + 1) targetSets).sets < targetSets from
        Nat.lt_irrefl targetSets)]

/-- C5 (amended). When every camera's filled queue keeps supplying the
same timestamp stream `f` (the common capture grid), the loop reaches its
exit condition after emitting exactly 100 aligned sets — any fuel beyond
100 iterations leaves the state unchanged — with every `current_frames`
slot NULL at exit; the stop broadcast is exactly the 4 ASCII bytes
`S`,`T`,`O`,`P` with no terminator. -/
theorem c5_terminates_on_common_grid (f : Nat → Nat) (n k : Nat) (hn : 0 < n) :
    (runInf targetSets (targetSets + k) (perfInf f n 0)).sets = targetSets ∧
    (runInf targetSets (targetSets + k) (perfInf f n 0)).emitted =
      (List.range targetSets).map f ∧
    ((runInf targetSets (targetSets + k) (perfInf f n 0)).cams.all
      fun c => c.cur.isNone) = true ∧
    stopMsgBytes = [83, 84, 79, 80] ∧ stopMsgBytes.length = 4 := by
  obtain ⟨k', rfl⟩ : ∃ k', n = k' + 1 := ⟨n - 1, by omega⟩
  rw [runInf_perf f k' (targetSets + k) 0 (by omega) (by omega)]
  refine ⟨rfl, rfl, ?_, by decide, by decide⟩
  apply List.all_eq_true.mpr
  intro c hc
  rw [List.eq_of_mem_replicate hc]
  rfl

/-- C5 witness: one camera on the identity grid. -/
theorem c5_terminates_on_common_grid_witness :
    (runInf targetSets (targetSets + 0) (perfInf (fun i => i) 1 0)).sets = targetSets ∧
    (runInf targetSets (targetSets + 0) (perfInf (fun i => i) 1 0)).emitted =
      (List.range targetSets).map (fun i => i) ∧
    ((runInf targetSets (targetSets + 0) (perfInf (fun i => i) 1 0)).cams.all
      fun c => c.cur.isNone) = true ∧
    stopMsgBytes = [83, 84, 79, 80] ∧ stopMsgBytes.length = 4 :=
  c5_terminates_on_common_grid (fun i => i) 1 0 (by decide)

/-! ### C6: startup failure exit codes

`main` (lines 22-151) exits early on each startup failure.  The embedding
records the result of each external call as an environment and returns
`some code` when `main` returns before the run starts, `none` when startup
succeeds.  Each branch mirrors the corresponding `return` statement:
`-errno` for the logging, affinity and allocation failures; the callee's
return value unchanged for `count_cameras`, `parse_conf` and
`pthread_create` failures. -/

/-- Results of the external calls made during startup.  `errnoAfterLog`
and `errnoAfterAffinity` are the `errno` values read after a failed
`setup_logging` / `sched_setaffinity`. -/
structure StartupEnv where
  setupLoggingRet : Int
  errnoAfterLog : Int
  countCamerasRet : Int
  parseConfRet : Int
  setAffinityRet : Int
  errnoAfterAffinity : Int
  mallocOk : Bool
  pthreadCreateRet : Nat → Int

/-- `ENOMEM`, the code negated at the allocation-failure return. -/
def ENOMEM : Int := 12

/-- First nonzero `pthread_create` result over workers `0..n-1`, in spawn
order (the loop at lines 133-152). -/
def firstSpawnErr (f : Nat → Int) (n : Nat) : Option Int :=
  ((List.range n).map f).find? (fun r => r ≠ 0)

/-- The startup prefix of `main` (lines 22-151): `some code` = early
`return code`; `none` = all startup steps succeeded. -/
def mainStartup (e : StartupEnv) : Option Int :=
  if e.setupLoggingRet ≠ 0 then some (-e.errnoAfterLog)
  else if e.countCamerasRet ≤ 0 then some e.countCamerasRet
  else if e.parseConfRet ≠ 0 then some e.parseConfRet
  else if e.setAffinityRet = -1 then some (-e.errnoAfterAffinity)
  else if ¬ e.mallocOk then some (-ENOMEM)
  else
    match firstSpawnErr e.pthreadCreateRet e.countCamerasRet.toNat with
    | some r => some r
    | none => none

/-- A run whose camera config contains zero cameras (`count_cameras`
returns 0) and whose other startup steps would all succeed. -/
def zeroCamsEnv : StartupEnv :=
  { setupLoggingRet := 0, errnoAfterLog := 0, countCamerasRet := 0,
    parseConfRet := 0, setAffinityRet := 0, errnoAfterAffinity := 0,
    mallocOk := true, pthreadCreateRet := fun _ => 0 }

/-- C6 counterexample: in the zero-cameras case `main` executes
`return cam_count` with `cam_count = 0` and the process exits with code
0 — a startup failure whose exit code is neither negative nor even
non-zero, refuting the claim that every startup failure exits with a
negative errno-style code. -/
theorem c6_zero_cameras_exits_zero :
    mainStartup zeroCamsEnv = some 0 ∧ ¬ (0 : Int) < 0 := by
  constructor
  · rfl
  · omega

/-- C6 (amended). Every startup failure exits immediately with the error
code produced at the failing step: the logging, affinity and allocation
failures return a negative value (given the POSIX guarantee that `errno`
is positive), while `count_cameras`, `parse_conf` and `pthread_create`
failures return that callee's value unchanged — so the exit code is only
negative when the callee's own convention makes it so; in particular a
zero camera count exits with 0 and a positive `pthread_create` error
with a positive code. -/
theorem c6_startup_exit_codes (e : StartupEnv) (r : Int)
    (hlog : 0 < e.errnoAfterLog) (haff : 0 < e.errnoAfterAffinity)
    (h : mainStartup e = some r) :
    (e.setupLoggingRet ≠ 0 → r = -e.errnoAfterLog ∧ r < 0) ∧
    (e.setupLoggingRet = 0 → e.countCamerasRet ≤ 0 → r = e.countCamerasRet) ∧
    (e.setupLoggingRet = 0 → 0 < e.countCamerasRet → e.parseConfRet ≠ 0 →
      r = e.parseConfRet) ∧
    (e.setupLoggingRet = 0 → 0 < e.countCamerasRet → e.parseConfRet = 0 →
      e.setAffinityRet = -1 → r = -e.errnoAfterAffinity ∧ r < 0) ∧
    (e.setupLoggingRet = 0 → 0 < e.countCamerasRet → e.parseConfRet = 0 →
      e.setAffinityRet ≠ -1 → e.mallocOk = false → r = -ENOMEM ∧ r < 0) ∧
    (e.setupLoggingRet = 0 → 0 < e.countCamerasRet → e.parseConfRet = 0 →
      e.setAffinityRet ≠ -1 → e.mallocOk = true →
      firstSpawnErr e.pthreadCreateRet e.countCamerasRet.toNat = some r) := by
  refine ⟨?_, ?_, ?_, ?_, ?_, ?_⟩
  · intro h1
    rw [mainStartup, if_pos h1] at h
    have : r = -e.errnoAfterLog := by
      injection h with h'
      omega
    exact ⟨this, by omega⟩
  · intro h1 h2
    rw [mainStartup, if_neg (by omega), if_pos h2] at h
    injection h with h'
    omega
  · intro h1 h2 h3
    rw [mainStartup, if_neg (by omega), if_neg (by omega), if_pos h3] at h
    injection h with h'
    omega
  · intro h1 h2 h3 h4
    rw [mainStartup, if_neg (by omega), if_neg (by omega), if_neg (by omega),
      if_pos h4] at h
    have : r = -e.errnoAfterAffinity := by
      injection h with h'
      omega
    exact ⟨this, by omega⟩
  · intro h1 h2 h3 h4 h5
    rw [mainStartup, if_neg (by omega), if_neg (by omega), if_neg (by omega),
      if_neg (by omega), if_pos (by rw [h5]; exact Bool.false_ne_true)] at h
    have : r = -ENOMEM := by
      injection h with h'
      omega
    refine ⟨this, ?_⟩
    rw [this]
    unfold ENOMEM
    omega
  · intro h1 h2 h3 h4 h5
    rw [mainStartup, if_neg (by omega), if_neg (by omega), if_neg (by omega),
      if_neg (by omega), if_neg (by rw [h5]; exact fun hh => hh rfl)] at h
    cases hs : firstSpawnErr e.pthreadCreateRet e.countCamerasRet.toNat with
    | none => rw [hs] at h; cases h
    | some v =>
      rw [hs] at h
      injection h with h'
      rw [h']

/-- An environment where `pthread_create` fails for worker 1 with the
positive errno value 11 (`EAGAIN`). -/
def spawnFailEnv : StartupEnv :=
  { setupLoggingRet := 0, errnoAfterLog := 1, countCamerasRet := 2,
    parseConfRet := 0, setAffinityRet := 0, errnoAfterAffinity := 1,
    mallocOk := true, pthreadCreateRet := fun i => if i = 0 then 0 else 11 }

/-- C6 witness: the amended theorem applied to `spawnFailEnv`, whose exit
code 11 is the `pthread_create` value passed through. -/
theorem c6_startup_exit_codes_witness :
    (spawnFailEnv.setupLoggingRet ≠ 0 →
      (11 : Int) = -spawnFailEnv.errnoAfterLog ∧ (11 : Int) < 0) ∧
    (spawnFailEnv.setupLoggingRet = 0 → spawnFailEnv.countCamerasRet ≤ 0 →
      (11 : Int) = spawnFailEnv.countCamerasRet) ∧
    (spawnFailEnv.setupLoggingRet = 0 → 0 < spawnFailEnv.countCamerasRet →
      spawnFailEnv.parseConfRet ≠ 0 → (11 : Int) = spawnFailEnv.parseConfRet) ∧
    (spawnFailEnv.setupLoggingRet = 0 → 0 < spawnFailEnv.countCamerasRet →
      spawnFailEnv.parseConfRet = 0 → spawnFailEnv.setAffinityRet = -1 →
      (11 : Int) = -spawnFailEnv.errnoAfterAffinity ∧ (11 : Int) < 0) ∧
    (spawnFailEnv.setupLoggingRet = 0 → 0 < spawnFailEnv.countCamerasRet →
      spawnFailEnv.parseConfRet = 0 → spawnFailEnv.setAffinityRet ≠ -1 →
      spawnFailEnv.mallocOk = false → (11 : Int) = -ENOMEM ∧ (11 : Int) < 0) ∧
    (spawnFailEnv.setupLoggingRet = 0 → 0 < spawnFailEnv.countCamerasRet →
      spawnFailEnv.parseConfRet = 0 → spawnFailEnv.setAffinityRet ≠ -1 →
      spawnFailEnv.mallocOk = true →
      firstSpawnErr spawnFailEnv.pthreadCreateRet
        spawnFailEnv.countCamerasRet.toNat = some 11) :=
  c6_startup_exit_codes spawnFailEnv 11 (by decide) (by decide) (by rfl)

/-! ### C7: spawn-failure cleanup order

The observable resource/thread actions of `main` after allocation
(lines 133-229), as a trace.  On the success path the loop spawns every
worker, the run proceeds, `STOP` is broadcast, every worker is joined and
only then is the pool freed.  On a `pthread_create` failure the code at
lines 146-151 logs, frees the pool and returns at once — without
broadcasting `STOP` or joining any already-spawned worker. -/

/-- Observable actions of `main` involving threads and the buffer pool. -/
inductive Action where
  | spawnWorker (i : Nat)
  | broadcastAnchor
  | broadcastStop
  | joinWorker (i : Nat)
  | freePool
  | cleanupLogging
deriving DecidableEq

/-- The spawn loop (lines 133-152) over workers `i..i+k-1`: the spawned
workers so far, and the first failing `pthread_create` result if any. -/
def spawnFrom (pres : Nat → Int) (i : Nat) : Nat → List Action × Option Int
  | 0 => ([], none)
  | k + 1 =>
    if pres i ≠ 0 then ([], some (pres i))
    else
      let rest := spawnFrom pres (i + 1) k
      (Action.spawnWorker i :: rest.1, rest.2)

/-- The action trace of `main` from the spawn loop to process exit, for
`n` cameras with `pthread_create` results `pres` (synchronizer iterations
elided; they touch neither threads nor the pool allocation). -/
def mainActions (pres : Nat → Int) (n : Nat) : List Action :=
  match spawnFrom pres 0 n with
  | (as, some _) => as ++ [Action.freePool, Action.cleanupLogging]
  | (as, none) =>
      as ++ [Action.broadcastAnchor, Action.broadcastStop] ++
        (List.range n).map Action.joinWorker ++
        [Action.freePool, Action.cleanupLogging]

/-- `pthread_create` succeeds for worker 0 and fails with `EAGAIN` (11)
for worker 1, with 2 cameras configured. -/
def spawnFailAt1 : Nat → Int := fun i => if i = 0 then 0 else 11

/-- C7: the code as written violates the claim.  When `pthread_create`
fails for worker 1 after worker 0 was spawned, `main`'s trace is
spawn(0), free pool, cleanup logging: the pool is freed while spawned
worker 0 is never joined and no `STOP` is ever broadcast — the running
worker can still reach the freed memory. -/
theorem c7_spawn_failure_frees_pool_without_join :
    mainActions spawnFailAt1 2 =
      [Action.spawnWorker 0, Action.freePool, Action.cleanupLogging] ∧
    Action.spawnWorker 0 ∈ mainActions spawnFailAt1 2 ∧
    Action.freePool ∈ mainActions spawnFailAt1 2 ∧
    Action.joinWorker 0 ∉ mainActions spawnFailAt1 2 ∧
    Action.broadcastStop ∉ mainActions spawnFailAt1 2 := by decide

/-! ### C8: the start anchor value and width -/

/-- `TIMESTAMP_DELAY` (line 19), in seconds. -/
def TIMESTAMP_DELAY : Nat := 1

/-- The anchor computation at line 156:
`(ts.tv_sec + TIMESTAMP_DELAY) * 1000000000ULL + ts.tv_nsec`, as a `u64`. -/
def anchorTimestamp (sec nsec : Nat) : Nat :=
  ((sec + TIMESTAMP_DELAY) * 1000000000 + nsec) % 2 ^ 64

/-- The 8 bytes of a `u64` in little-endian order, as transmitted by
`broadcast_msg(confs, cam_count, (char*)&timestamp, sizeof(timestamp))`
(line 157) on a little-endian host. -/
def leBytes8 (v : Nat) : List Nat :=
  (List.range 8).map (fun k => v / 256 ^ k % 256)

/-- C8. For every clock reading the transmitted anchor value
`(tv_sec + 1) * 10^9 + tv_nsec` equals the reading expressed in
nanoseconds plus one second, `(tv_sec * 10^9 + tv_nsec) + 10^9` (as u64
values), and the broadcast message is exactly 8 bytes. -/
theorem c8_anchor_value (sec nsec : Nat) :
    anchorTimestamp sec nsec = ((sec * 1000000000 + nsec) + 1000000000) % 2 ^ 64 ∧
    (leBytes8 (anchorTimestamp sec nsec)).length = 8 := by
  constructor
  · unfold anchorTimestamp TIMESTAMP_DELAY
    ring_nf
  · unfold leBytes8
    rw [List.length_map, List.length_range]

/-! ### C10: the frame-buffer slots tile the allocation disjointly -/

/-- The `frame_buf` pointer of slot `j`, as its byte offset into the
single `malloc`ed region (lines 100-103: `frame_bufs + i * frame_buf_size`). -/
def frameBufPtr (S j : Nat) : Nat := j * S

/-- The byte region of slot `j`: `S` bytes starting at its offset. -/
def slotRegion (S j : Nat) : Finset Nat :=
  Finset.Ico (frameBufPtr S j) (frameBufPtr S j + S)

/-- The whole allocation: `count * S` bytes (line 93). -/
def poolRegion (S count : Nat) : Finset Nat :=
  Finset.Ico 0 (count * S)

lemma slotRegion_disjoint (S j k : Nat) (hS : 0 < S) (hjk : j ≠ k) :
    Disjoint (slotRegion S j) (slotRegion S k) := by
  rw [Finset.disjoint_left]
  intro x hxj hxk
  rw [slotRegion, Finset.mem_Ico] at hxj hxk
  unfold frameBufPtr at hxj hxk
  rcases Nat.lt_or_ge j k with h | h
  · have : j + 1 ≤ k := h
    have : (j + 1) * S ≤ k * S := Nat.mul_le_mul_right S this
    have hx1 : x < j * S + S := hxj.2
    have hx2 : k * S ≤ x := hxk.1
    have : j * S + S = (j + 1) * S := by ring
    omega
  · have hkj : k < j := Nat.lt_of_le_of_ne h (Ne.symm hjk)
    have : (k + 1) * S ≤ j * S := Nat.mul_le_mul_right S hkj
    have hx1 : x < k * S + S := hxk.2
    have hx2 : j * S ≤ x := hxj.1
    have : k * S + S = (k + 1) * S := by ring
    omega

lemma slotRegion_tiles (S : Nat) (count : Nat) :
    (Finset.range count).biUnion (fun j => slotRegion S j) = poolRegion S count := by
  induction count with
  | zero => simp [poolRegion]
  | succ c ih =>
    rw [Finset.range_succ, Finset.biUnion_insert, ih]
    unfold poolRegion slotRegion frameBufPtr
    rw [Finset.union_comm]
    rw [show (c + 1) * S = c * S + S by ring]
    exact Finset.Ico_union_Ico_eq_Ico (Nat.zero_le _) (Nat.le_add_right _ _)

/-- C10. With `count = cam_count * FRAME_BUFS_PER_THREAD` slots of
`frame_buf_size = S > 0` bytes each: slot `j`'s pointer sits at byte
offset `j * S`; two distinct slots occupy disjoint byte regions; and the
slot regions exactly tile the single allocation of `count * S` bytes. -/
theorem c10_slots_tile_allocation (camCount S j k : Nat) (hS : 0 < S)
    (hj : j < camCount * FRAME_BUFS_PER_THREAD)
    (hk : k < camCount * FRAME_BUFS_PER_THREAD) (hjk : j ≠ k) :
    frameBufPtr S j = j * S ∧
    Disjoint (slotRegion S j) (slotRegion S k) ∧
    (Finset.range (camCount * FRAME_BUFS_PER_THREAD)).biUnion
        (fun i => slotRegion S i) =
      poolRegion S (camCount * FRAME_BUFS_PER_THREAD) :=
  ⟨rfl, slotRegion_disjoint S j k hS hjk,
    slotRegion_tiles S (camCount * FRAME_BUFS_PER_THREAD)⟩

/-- C10 witness: one camera, 2-byte frames, slots 0 and 1. -/
theorem c10_slots_tile_allocation_witness :
    frameBufPtr 2 0 = 0 * 2 ∧
    Disjoint (slotRegion 2 0) (slotRegion 2 1) ∧
    (Finset.range (1 * FRAME_BUFS_PER_THREAD)).biUnion
        (fun i => slotRegion 2 i) =
      poolRegion 2 (1 * FRAME_BUFS_PER_THREAD) :=
  c10_slots_tile_allocation 1 2 0 1 (by decide) (by decide) (by decide) (by decide)

end Mimic
